import Mathlib

/-!
Shallow embedding of src/first.py, a PDF word-frequency extractor.

The extraction core is ExtractWorker.run (lines 35-52 of first.py): it
slices pdf.pages[start_page - 1 : end_page], walks the slice in order,
filters the tokens of each page through a fixed acceptance test, folds
accepted lemmas into a collections.Counter, emits a progress signal
after each page, and finally emits exactly one result signal: the
counter on success, the sentinel counter with the single key
"❌ 提取失败" if any exception escaped the loop (line 52).  The
GUI-side pieces the claims mention are PDFWordExtractor.extract_words
(range validation, lines 170-194) and PDFWordExtractor.display_result
(failure test and ranked view, lines 196-212).

Modelling notes.
* A counter is an association list in first-insertion key order, which
  is the key order of a Python dict and hence of a Counter.
* The external collaborators (pdfplumber page reads and the spaCy
  engine) are modelled by their observable behaviour per page: a page
  read either raises, returns falsy text, or returns text whose
  tokenization is a given token list.
* start_page is taken as a natural number that is at least 1, as the
  callers construct it; Python negative-index slicing is out of scope.
* The progress percentage int((i + 1) / len(pages) * 100) of line 49 is
  modelled in exact integer arithmetic as (i + 1) * 100 / total; the
  source computes the quotient in IEEE-754 doubles, which agrees except
  for double-rounding anomalies (those are discussed where the rounding
  rule itself is the claim).
-/

/-- A token as produced by the spaCy engine, with exactly the
attributes the filter of lines 45-47 reads: token.is_alpha,
token.is_ascii, len(token), token.lemma_. -/
structure Token where
  is_alpha : Bool
  is_ascii : Bool
  length : Nat
  lemma_ : String
deriving DecidableEq

/-- The result of page.extract_text() plus tokenization for one page:
err models an exception raised while reading the page; ok none models a
falsy result (None or empty text, line 42); ok (some ts) models text
whose spaCy tokenization is ts. -/
inductive PageRead where
  | ok : Option (List Token) → PageRead
  | err : PageRead
deriving DecidableEq

/-- Whether reading the page raised no exception. -/
def PageRead.isOk : PageRead → Bool
  | .ok _ => true
  | .err => false

/-- The token list a read page contributes (unused on err pages). -/
def PageRead.text : PageRead → Option (List Token)
  | .ok t => t
  | .err => none

/-- The failure sentinel key of line 52. -/
def failSentinel : String := "❌ 提取失败"

/-- The events emitted through the Qt signals: progress (line 49) and
the terminal result carrying a counter (lines 50 and 52). -/
inductive Event where
  | progress : Nat → Event
  | result : List (String × Nat) → Event
deriving DecidableEq

/-- Whether an event is a terminal result. -/
def Event.isResult : Event → Bool
  | .result _ => true
  | .progress _ => false

/-- word_counter[l] += 1 of line 48: bump the entry of key l in place
when present, else append a fresh entry at the end, exactly the update
of a Python Counter (dict key order is first-insertion order). -/
def incr (l : String) : List (String × Nat) → List (String × Nat)
  | [] => [(l, 1)]
  | (k, c) :: rest => if k = l then (k, c + 1) :: rest else (k, c) :: incr l rest

/-- counter[l], 0 when the key is absent: the value of the first (and,
for counters built by incr, only) entry with key l. -/
def countOf (l : String) : List (String × Nat) → Nat
  | [] => 0
  | (k, c) :: rest => if k = l then c else countOf l rest

/-- str.lower() of line 46, modelled characterwise over the character
list of the string. -/
def pyLower (s : String) : String := ⟨s.data.map Char.toLower⟩

/-- The per-token acceptance test of lines 45-47: alphabetic, ASCII,
length strictly greater than 1, lowered lemma in the vocabulary and not
a stop word. -/
def accept (vocab stops : List String) (t : Token) : Bool :=
  t.is_alpha && t.is_ascii && decide (1 < t.length) &&
    vocab.contains (pyLower t.lemma_) && !(stops.contains (pyLower t.lemma_))

/-- Lines 42-48: the contribution of one tokenized page to the counter;
a falsy page contributes nothing. -/
def processPage (vocab stops : List String) (page : Option (List Token))
    (m : List (String × Nat)) : List (String × Nat) :=
  match page with
  | none => m
  | some toks =>
    toks.foldl
      (fun acc t => if accept vocab stops t then incr (pyLower t.lemma_) acc else acc) m

/-- Fold a sequence of readable pages into a counter, in page order. -/
def countFrom (vocab stops : List String) (texts : List (Option (List Token)))
    (m : List (String × Nat)) : List (String × Nat) :=
  texts.foldl (fun acc t => processPage vocab stops t acc) m

/-- The counter accumulated over a sequence of readable pages, from the
empty counter of line 37. -/
def countPages (vocab stops : List String) (texts : List (Option (List Token))) :
    List (String × Nat) :=
  countFrom vocab stops texts []

/-- Every token of a sequence of readable pages, in page order then
engine emission order. -/
def allTokens (texts : List (Option (List Token))) : List Token :=
  texts.foldr (fun o acc => o.getD [] ++ acc) []

/-- Line 49: int((i + 1) / len(pages) * 100) with i the 0-based loop
index, in exact integer arithmetic. -/
def progressPct (i total : Nat) : Nat := (i + 1) * 100 / total

/-- The page loop of lines 40-49 over the sliced page list: process the
pages in order, threading the counter and emitting one progress signal
after each page; an exception while reading a page aborts the loop.
Returns the events the loop emitted, and some counter when the loop
finished, none when it was aborted. -/
def pageLoop (vocab stops : List String) (total : Nat) :
    List PageRead → Nat → List (String × Nat) →
      List Event × Option (List (String × Nat))
  | [], _, m => ([], some m)
  | .err :: _, _, _ => ([], none)
  | .ok txt :: rest, i, m =>
    let r := pageLoop vocab stops total rest (i + 1) (processPage vocab stops txt m)
    (Event.progress (progressPct i total) :: r.1, r.2)

/-- pdf.pages[start_page - 1 : end_page] of line 39, for start_page at
least 1: drop the first start_page - 1 pages and keep at most
end_page - (start_page - 1) of the rest.  An end past the last page
truncates silently; an empty or reversed range gives the empty slice. -/
def sliceOf {α : Type} (doc : List α) (start_page end_page : Nat) : List α :=
  (doc.drop (start_page - 1)).take (end_page - (start_page - 1))

namespace ExtractWorker

/-- The try block of run (lines 36-50): the events of the page loop,
and some counter when the loop finished, none when an exception aborted
it. -/
def runCore (vocab stops : List String) (doc : List PageRead)
    (start_page end_page : Nat) : List Event × Option (List (String × Nat)) :=
  let pages := sliceOf doc start_page end_page
  pageLoop vocab stops pages.length pages 0 []

/-- The counter carried by the terminal result signal: the accumulated
counter on success (line 50), the sentinel counter on exception
(line 52). -/
def emittedResult (r : Option (List (String × Nat))) : List (String × Nat) :=
  r.getD [(failSentinel, 1)]

/-- ExtractWorker.run (lines 35-52): every emitted signal, in emission
order. -/
def run (vocab stops : List String) (doc : List PageRead)
    (start_page end_page : Nat) : List Event :=
  (runCore vocab stops doc start_page end_page).1 ++
    [Event.result (emittedResult (runCore vocab stops doc start_page end_page).2)]

end ExtractWorker

/-- The percentages of the progress signals of an event list, in
emission order. -/
def progressValues (evs : List Event) : List Nat :=
  evs.filterMap (fun e => match e with | .progress n => some n | .result _ => none)

namespace PDFWordExtractor

/-- The range check of extract_words (lines 182-194), after integer
parsing succeeded: none models the synchronous warning dialog and
return, with no worker created; some models constructing and starting
ExtractWorker with the given pages. -/
def extract_words (start_page end_page total_pages : Int) : Option (Int × Int) :=
  if start_page < 1 ∨ end_page < start_page ∨ end_page > total_pages then none
  else some (start_page, end_page)

/-- The failure test of display_result (line 197): the sentinel key is
present in the received counter. -/
def showsFailure (m : List (String × Nat)) : Bool :=
  (m.find? (fun p => p.1 == failSentinel)).isSome

/-- One insertion step of the stable descending sort below: place the
entry after every earlier entry of strictly larger count and before the
first entry of equal or smaller count. -/
def insertDesc (p : String × Nat) : List (String × Nat) → List (String × Nat)
  | [] => [p]
  | q :: qs => if p.2 < q.2 then q :: insertDesc p qs else p :: q :: qs

/-- Counter.most_common() as used on line 209: a stable sort of the
entries, taken in key-insertion order, by count descending — CPython
implements it as sorted(items, key=count, reverse=True) over the dict
items, and sorted with reverse=True keeps equal elements in their
original order. -/
def most_common : List (String × Nat) → List (String × Nat)
  | [] => []
  | p :: rest => insertDesc p (most_common rest)

end PDFWordExtractor

lemma takeWhile_eq_self_of_all {α : Type} (p : α → Bool) :
    ∀ l : List α, l.all p = true → l.takeWhile p = l
  | [], _ => rfl
  | a :: l, h => by
    simp only [List.all_cons, Bool.and_eq_true] at h
    simp [List.takeWhile_cons, h.1, takeWhile_eq_self_of_all p l h.2]

lemma takeWhile_length_le {α : Type} (p : α → Bool) :
    ∀ l : List α, (l.takeWhile p).length ≤ l.length
  | [] => Nat.le_refl 0
  | a :: l => by
    rw [List.takeWhile_cons]
    by_cases h : p a = true
    · simpa [h] using takeWhile_length_le p l
    · simp [h]

/-- The page loop in closed form: the events are one progress signal per
page before the first erring page, with the percentages of line 49 in
order, and the loop finishes with the folded counter exactly when no
page in the slice errs. -/
lemma pageLoop_eq (vocab stops : List String) (total : Nat) :
    ∀ (pages : List PageRead) (i : Nat) (m : List (String × Nat)),
    pageLoop vocab stops total pages i m =
      ((List.range (pages.takeWhile PageRead.isOk).length).map
          (fun j => Event.progress (progressPct (i + j) total)),
       if pages.all PageRead.isOk = true
       then some (countFrom vocab stops (pages.map PageRead.text) m)
       else none)
  | [], i, m => by simp [pageLoop, countFrom]
  | .err :: rest, i, m => by
    simp [pageLoop, List.takeWhile_cons, PageRead.isOk, List.all_cons]
  | .ok txt :: rest, i, m => by
    have ih := pageLoop_eq vocab stops total rest (i + 1) (processPage vocab stops txt m)
    simp only [pageLoop, ih, List.takeWhile_cons, PageRead.isOk, List.all_cons,
      Bool.true_and, List.length_cons, List.range_succ_eq_map, List.map_cons,
      List.map_map, List.map_cons, PageRead.text, countFrom, List.foldl_cons,
      if_true, Prod.mk.injEq]
    refine ⟨?_, trivial⟩
    have hfun : (fun j => Event.progress (progressPct (i + 1 + j) total)) =
        ((fun j => Event.progress (progressPct (i + j) total)) ∘ Nat.succ) := by
      funext j
      simp only [Function.comp_apply]
      have h : i + 1 + j = i + (j + 1) := by omega
      rw [h]
    rw [hfun]
    rfl

/-- Slicing commutes with mapping a function over the document. -/
lemma sliceOf_map {α β : Type} (f : α → β) (doc : List α) (a b : Nat) :
    sliceOf (doc.map f) a b = (sliceOf doc a b).map f := by
  simp [sliceOf, List.map_take, List.map_drop]

lemma map_text_map_ok (texts : List (Option (List Token))) :
    (texts.map PageRead.ok).map PageRead.text = texts := by
  rw [List.map_map]
  have h : PageRead.text ∘ PageRead.ok = id := by
    funext t
    rfl
  rw [h, List.map_id]

lemma all_isOk_map_ok (texts : List (Option (List Token))) :
    (texts.map PageRead.ok).all PageRead.isOk = true := by
  simp only [List.all_eq_true]
  intro x hx
  obtain ⟨t, _, rfl⟩ := List.mem_map.mp hx
  rfl

/-- The try block over a fully readable document, in closed form: one
progress signal per page of the slice and the counter folded over the
slice. -/
lemma runCore_ok (vocab stops : List String) (texts : List (Option (List Token)))
    (a b : Nat) :
    ExtractWorker.runCore vocab stops (texts.map PageRead.ok) a b =
      ((List.range (sliceOf texts a b).length).map
          (fun j => Event.progress (progressPct j (sliceOf texts a b).length)),
       some (countPages vocab stops (sliceOf texts a b))) := by
  unfold ExtractWorker.runCore
  rw [sliceOf_map, pageLoop_eq]
  rw [takeWhile_eq_self_of_all _ _ (all_isOk_map_ok _), all_isOk_map_ok,
    map_text_map_ok]
  simp [countPages]

/-- Incrementing key k changes the looked-up count of l by one exactly
when k is l, and leaves every other count unchanged. -/
lemma countOf_incr (l k : String) :
    ∀ m, countOf l (incr k m) = countOf l m + (if k = l then 1 else 0)
  | [] => by
    by_cases h : k = l <;> simp [countOf, incr, h]
  | (q, c) :: rest => by
    have ih := countOf_incr l k rest
    by_cases h : q = k
    · subst h
      by_cases h2 : q = l <;> simp [countOf, incr, h2]
    · by_cases h2 : q = l
      · subst h2
        have hkl : ¬(k = q) := fun hh => h hh.symm
        simp [countOf, incr, h, hkl]
      · simp [countOf, incr, h, h2, ih]

/-- The token fold of lines 44-48 in closed form: the count of l grows
by the number of accepted tokens whose lowered lemma is l. -/
lemma countOf_foldTokens (vocab stops : List String) (l : String) :
    ∀ (toks : List Token) (m : List (String × Nat)),
    countOf l (toks.foldl
        (fun acc t => if accept vocab stops t then incr (pyLower t.lemma_) acc else acc) m) =
      countOf l m + toks.countP (fun t => accept vocab stops t && (pyLower t.lemma_ == l))
  | [], m => by simp
  | t :: toks, m => by
    have ih := countOf_foldTokens vocab stops l toks
    by_cases h : accept vocab stops t = true
    · by_cases h2 : pyLower t.lemma_ = l
      · simp only [List.foldl_cons, h, if_true, ih, countOf_incr, h2, if_pos,
          List.countP_cons, beq_self_eq_true, Bool.and_true]
        omega
      · have h2b : (pyLower t.lemma_ == l) = false := by
          simpa using h2
        simp [List.foldl_cons, h, ih, countOf_incr, h2, List.countP_cons, h2b]
    · have hb : accept vocab stops t = false := by
        simpa using h
      simp [List.foldl_cons, hb, ih, List.countP_cons]

/-- One page of lines 42-48 in closed form. -/
lemma countOf_processPage (vocab stops : List String) (l : String)
    (page : Option (List Token)) (m : List (String × Nat)) :
    countOf l (processPage vocab stops page m) =
      countOf l m +
        (page.getD []).countP (fun t => accept vocab stops t && (pyLower t.lemma_ == l)) := by
  cases page with
  | none => simp [processPage]
  | some toks => simpa [processPage] using countOf_foldTokens vocab stops l toks m

/-- The page fold in closed form: counts accumulate over the pages. -/
lemma countOf_countFrom (vocab stops : List String) (l : String) :
    ∀ (texts : List (Option (List Token))) (m : List (String × Nat)),
    countOf l (countFrom vocab stops texts m) =
      countOf l m +
        (allTokens texts).countP (fun t => accept vocab stops t && (pyLower t.lemma_ == l))
  | [], m => by simp [countFrom, allTokens]
  | o :: texts, m => by
    have ih := countOf_countFrom vocab stops l texts (processPage vocab stops o m)
    simp only [countFrom, List.foldl_cons] at ih ⊢
    rw [ih, countOf_processPage]
    simp only [allTokens, List.foldr_cons, List.countP_append]
    omega

/-- Keys touched by incr: the incremented key, or a key already there. -/
lemma mem_incr (l : String) (m : List (String × Nat)) :
    ∀ p : String × Nat, p ∈ incr l m → p.1 = l ∨ p ∈ m := by
  induction m with
  | nil =>
    intro p h
    simp only [incr, List.mem_singleton] at h
    subst h
    exact Or.inl rfl
  | cons q rest ih =>
    obtain ⟨k, c⟩ := q
    intro p h
    by_cases hk : k = l
    · subst hk
      simp only [incr] at h
      rw [if_true] at h
      rcases List.mem_cons.mp h with h | h
      · subst h
        exact Or.inl rfl
      · exact Or.inr (List.mem_cons_of_mem _ h)
    · simp only [incr, if_neg hk, List.mem_cons] at h
      rcases h with h | h
      · exact Or.inr (List.mem_cons.mpr (Or.inl h))
      · rcases ih p h with h2 | h2
        · exact Or.inl h2
        · exact Or.inr (List.mem_cons_of_mem _ h2)

/-- Every key the token fold adds passed the vocabulary test. -/
lemma mem_foldTokens (vocab stops : List String) :
    ∀ (toks : List Token) (m : List (String × Nat)) (p : String × Nat),
    p ∈ toks.foldl
        (fun acc t => if accept vocab stops t then incr (pyLower t.lemma_) acc else acc) m →
    p ∈ m ∨ vocab.contains p.1 = true
  | [], _, _ => fun h => Or.inl h
  | t :: toks, m, p => by
    intro h
    simp only [List.foldl_cons] at h
    by_cases ha : accept vocab stops t = true
    · rw [if_pos ha] at h
      rcases mem_foldTokens vocab stops toks _ p h with h2 | h2
      · rcases mem_incr _ _ _ h2 with h3 | h3
        · right
          rw [h3]
          simp only [accept, Bool.and_eq_true] at ha
          exact ha.1.2
        · left
          exact h3
      · right
        exact h2
    · rw [if_neg ha] at h
      exact mem_foldTokens vocab stops toks m p h

/-- Every key one page adds passed the vocabulary test. -/
lemma mem_processPage (vocab stops : List String) (page : Option (List Token))
    (m : List (String × Nat)) (p : String × Nat) :
    p ∈ processPage vocab stops page m → p ∈ m ∨ vocab.contains p.1 = true := by
  cases page with
  | none => exact fun h => Or.inl h
  | some toks => exact mem_foldTokens vocab stops toks m p

/-- Every key the page fold adds passed the vocabulary test. -/
lemma mem_countFrom (vocab stops : List String) :
    ∀ (texts : List (Option (List Token))) (m : List (String × Nat)) (p : String × Nat),
    p ∈ countFrom vocab stops texts m → p ∈ m ∨ vocab.contains p.1 = true
  | [], _, _ => fun h => Or.inl h
  | o :: texts, m, p => by
    intro h
    simp only [countFrom, List.foldl_cons] at h
    rcases mem_countFrom vocab stops texts _ p h with h2 | h2
    · exact mem_processPage vocab stops o m p h2
    · right
      exact h2

/-- Elements of an insertion step: the inserted entry or an old one. -/
lemma mem_insertDesc (p : String × Nat) :
    ∀ (l : List (String × Nat)) (q : String × Nat),
    q ∈ PDFWordExtractor.insertDesc p l → q = p ∨ q ∈ l
  | [], q => by
    intro h
    simp only [PDFWordExtractor.insertDesc, List.mem_singleton] at h
    exact Or.inl h
  | r :: rs, q => by
    intro h
    by_cases hc : p.2 < r.2
    · rw [PDFWordExtractor.insertDesc, if_pos hc] at h
      rcases List.mem_cons.mp h with h2 | h2
      · right
        exact List.mem_cons.mpr (Or.inl h2)
      · rcases mem_insertDesc p rs q h2 with h3 | h3
        · left
          exact h3
        · right
          exact List.mem_cons_of_mem _ h3
    · rw [PDFWordExtractor.insertDesc, if_neg hc] at h
      rcases List.mem_cons.mp h with h2 | h2
      · left
        exact h2
      · right
        exact h2

/-- An insertion step preserves the count-descending order. -/
lemma pairwise_insertDesc (p : String × Nat) :
    ∀ l : List (String × Nat),
    l.Pairwise (fun x y => y.2 ≤ x.2) →
    (PDFWordExtractor.insertDesc p l).Pairwise (fun x y => y.2 ≤ x.2)
  | [], _ => by simp [PDFWordExtractor.insertDesc]
  | r :: rs, h => by
    rcases List.pairwise_cons.mp h with ⟨hr, hrs⟩
    by_cases hc : p.2 < r.2
    · rw [PDFWordExtractor.insertDesc, if_pos hc]
      refine List.pairwise_cons.mpr ⟨?_, pairwise_insertDesc p rs hrs⟩
      intro q hq
      rcases mem_insertDesc p rs q hq with h2 | h2
      · rw [h2]
        omega
      · exact hr q h2
    · rw [PDFWordExtractor.insertDesc, if_neg hc]
      refine List.pairwise_cons.mpr ⟨?_, h⟩
      intro q hq
      rcases List.mem_cons.mp hq with h2 | h2
      · rw [h2]
        omega
      · have := hr q h2
        omega

/-- An insertion step is stable: restricted to any one count value, the
new entry lands in front exactly when it carries that count, and the
old entries keep their relative order. -/
lemma filter_insertDesc (c : Nat) (p : String × Nat) :
    ∀ l : List (String × Nat),
    (PDFWordExtractor.insertDesc p l).filter (fun q => q.2 == c) =
      if p.2 == c then p :: l.filter (fun q => q.2 == c)
      else l.filter (fun q => q.2 == c)
  | [] => by
    by_cases h : p.2 = c
    · have hb : (p.2 == c) = true := by simpa using h
      simp [PDFWordExtractor.insertDesc, List.filter, hb]
    · have hb : (p.2 == c) = false := by simpa using h
      simp [PDFWordExtractor.insertDesc, List.filter, hb]
  | r :: rs => by
    by_cases hc : p.2 < r.2
    · rw [PDFWordExtractor.insertDesc, if_pos hc]
      by_cases hp : p.2 = c
      · have hpb : (p.2 == c) = true := by simpa using hp
        have hr : ¬(r.2 = c) := by omega
        have hrb : (r.2 == c) = false := by simpa using hr
        simp [List.filter_cons, hrb, hpb, filter_insertDesc c p rs]
      · have hpb : (p.2 == c) = false := by simpa using hp
        simp [List.filter_cons, hpb, filter_insertDesc c p rs]
    · rw [PDFWordExtractor.insertDesc, if_neg hc]
      by_cases hp : p.2 = c
      · have hpb : (p.2 == c) = true := by simpa using hp
        simp [List.filter_cons, hpb]
      · have hpb : (p.2 == c) = false := by simpa using hp
        simp [List.filter_cons, hpb]

/-- most_common sorts by count descending. -/
lemma pairwise_most_common :
    ∀ m : List (String × Nat),
    (PDFWordExtractor.most_common m).Pairwise (fun x y => y.2 ≤ x.2)
  | [] => List.Pairwise.nil
  | p :: rest => by
    rw [PDFWordExtractor.most_common]
    exact pairwise_insertDesc p _ (pairwise_most_common rest)

/-- most_common is stable: restricted to any one count value it is the
identity on the first-insertion order. -/
lemma filter_most_common (c : Nat) :
    ∀ m : List (String × Nat),
    (PDFWordExtractor.most_common m).filter (fun q => q.2 == c) =
      m.filter (fun q => q.2 == c)
  | [] => rfl
  | p :: rest => by
    rw [PDFWordExtractor.most_common, filter_insertDesc, filter_most_common c rest]
    by_cases hp : p.2 = c
    · simp [List.filter_cons, hp]
    · simp [List.filter_cons, hp]

/-- A page with falsy text contributes nothing to the fold. -/
lemma countFrom_middle_none (vocab stops : List String)
    (X Y : List (Option (List Token))) (m : List (String × Nat)) :
    countFrom vocab stops (X ++ none :: Y) m = countFrom vocab stops (X ++ Y) m := by
  simp only [countFrom, List.foldl_append, List.foldl_cons]
  rfl

/-- Extracting the percentages from a run-shaped event list. -/
lemma progressValues_progress_map (f : Nat → Nat) :
    ∀ (l : List Nat) (tail : List Event),
    progressValues (l.map (fun j => Event.progress (f j)) ++ tail) =
      l.map f ++ progressValues tail
  | [], tail => rfl
  | x :: xs, tail => by
    have ih := progressValues_progress_map f xs tail
    show f x :: progressValues (xs.map (fun j => Event.progress (f j)) ++ tail) =
      f x :: (xs.map f ++ progressValues tail)
    rw [ih]

/-- The percentages a run emits, in closed form: one per page before
the first erring page of the slice. -/
lemma progressValues_run (vocab stops : List String) (doc : List PageRead)
    (a b : Nat) :
    progressValues (ExtractWorker.run vocab stops doc a b) =
      (List.range ((sliceOf doc a b).takeWhile PageRead.isOk).length).map
        (fun j => progressPct j (sliceOf doc a b).length) := by
  unfold ExtractWorker.run
  simp only [ExtractWorker.runCore]
  rw [pageLoop_eq]
  rw [progressValues_progress_map]
  simp [progressValues, Nat.zero_add]

/-- C2: every run of ExtractWorker emits exactly one terminal result
signal, it is the last signal emitted, and nothing after it: the run is
a sequence of progress signals followed by a single result signal. -/
theorem c2_exactly_one_terminal_result_and_last
    (vocab stops : List String) (doc : List PageRead) (a b : Nat) :
    ∃ evs m, ExtractWorker.run vocab stops doc a b = evs ++ [Event.result m] ∧
      ∀ e ∈ evs, e.isResult = false := by
  refine ⟨(ExtractWorker.runCore vocab stops doc a b).1, _, rfl, ?_⟩
  intro e he
  simp only [ExtractWorker.runCore] at he
  rw [pageLoop_eq] at he
  simp only [List.mem_map] at he
  obtain ⟨j, _, rfl⟩ := he
  rfl

/-- C3: a token occurrence is counted iff it passes the acceptance test
of lines 45-47 — alphabetic, ASCII, length greater than 1, lowered
lemma in the vocabulary, lowered lemma not a stop word — and each
accepted occurrence adds exactly 1: the final count of any string l is
the number of token occurrences, across all pages, that are accepted
and whose lowered lemma is l. -/
theorem c3_acceptance_policy_counts (vocab stops : List String)
    (texts : List (Option (List Token))) (l : String) :
    countOf l (countPages vocab stops texts) =
      (allTokens texts).countP
        (fun t => accept vocab stops t && (pyLower t.lemma_ == l)) := by
  have h := countOf_countFrom vocab stops l texts []
  simpa [countPages, countOf] using h

/-- C4: the range check of extract_words starts a worker exactly on the
ranges with 1 ≤ start ≤ end ≤ totalPages, and on every other range the
request is rejected synchronously: no worker object is created. -/
theorem c4_range_validation_boundary (s e t : Int) :
    ((PDFWordExtractor.extract_words s e t).isSome = true ↔
      (1 ≤ s ∧ s ≤ e ∧ e ≤ t)) ∧
    (PDFWordExtractor.extract_words s e t = none ↔
      ¬(1 ≤ s ∧ s ≤ e ∧ e ≤ t)) := by
  unfold PDFWordExtractor.extract_words
  split_ifs with h
  · constructor
    · constructor
      · intro hh
        exact absurd hh (by decide)
      · intro hp
        omega
    · constructor
      · intro _
        omega
      · intro _
        rfl
  · constructor
    · constructor
      · intro _
        omega
      · intro _
        rfl
    · constructor
      · intro hh
        exact absurd hh (by simp)
      · intro hp
        omega

/-- C5: on a validated range over a readable document, the run
processes exactly end − start + 1 pages (the slice has that length),
walks them in ascending page order (the result counter is the in-order
fold of the slice), and emits exactly one progress signal after each
page — also after pages with empty or missing text. -/
theorem c5_pages_in_order_one_progress_each
    (vocab stops : List String) (texts : List (Option (List Token)))
    (a b : Nat) (h1 : 1 ≤ a) (h2 : a ≤ b) (h3 : b ≤ texts.length) :
    (sliceOf texts a b).length = b - a + 1 ∧
    ExtractWorker.run vocab stops (texts.map PageRead.ok) a b =
      (List.range (b - a + 1)).map
        (fun j => Event.progress (progressPct j (b - a + 1))) ++
      [Event.result (countPages vocab stops (sliceOf texts a b))] := by
  have hlen : (sliceOf texts a b).length = b - a + 1 := by
    simp only [sliceOf, List.length_take, List.length_drop]
    omega
  refine ⟨hlen, ?_⟩
  unfold ExtractWorker.run
  rw [runCore_ok, hlen]
  simp [ExtractWorker.emittedResult]

/-- C5 witness: a concrete readable two-page document, range [1, 2];
page 2 has no text and still gets its progress signal. -/
theorem c5_witness :
    (2 : Nat) ≤
      ([some [(⟨true, true, 3, "Cat"⟩ : Token)], none] :
        List (Option (List Token))).length ∧
    ExtractWorker.run ["cat"] []
        ([some [(⟨true, true, 3, "Cat"⟩ : Token)], none].map PageRead.ok) 1 2 =
      [Event.progress 50, Event.progress 100, Event.result [("cat", 1)]] := by
  refine ⟨by decide, ?_⟩
  have h := c5_pages_in_order_one_progress_each ["cat"] []
      [some [(⟨true, true, 3, "Cat"⟩ : Token)], none] 1 2
      (by decide) (by decide) (by decide)
  exact h.2.trans (by decide)

/-- C7: for every run of the worker — aborted or not — the emitted
progress percentages are non-decreasing and lie in [0, 100], and on a
run that finishes its non-empty slice the last emitted percentage is
exactly 100. -/
theorem c7_progress_monotone_bounded_final
    (vocab stops : List String) (doc : List PageRead) (a b : Nat) :
    (progressValues (ExtractWorker.run vocab stops doc a b)).Pairwise (· ≤ ·) ∧
    (∀ x ∈ progressValues (ExtractWorker.run vocab stops doc a b), x ≤ 100) ∧
    ((sliceOf doc a b).all PageRead.isOk = true → sliceOf doc a b ≠ [] →
      (progressValues (ExtractWorker.run vocab stops doc a b)).getLast? =
        some 100) := by
  have hpv := progressValues_run vocab stops doc a b
  have hkt : ((sliceOf doc a b).takeWhile PageRead.isOk).length ≤
      (sliceOf doc a b).length := takeWhile_length_le _ _
  refine ⟨?_, ?_, ?_⟩
  · rw [hpv]
    refine List.Pairwise.map _ ?_ (List.pairwise_lt_range _)
    intro x y hxy
    exact Nat.div_le_div_right (Nat.mul_le_mul_right _ (by omega))
  · rw [hpv]
    intro x hx
    simp only [List.mem_map, List.mem_range] at hx
    obtain ⟨j, hj, rfl⟩ := hx
    have ht0 : 0 < (sliceOf doc a b).length := by omega
    calc progressPct j (sliceOf doc a b).length ≤
        (sliceOf doc a b).length * 100 / (sliceOf doc a b).length :=
          Nat.div_le_div_right (Nat.mul_le_mul_right _ (by omega))
      _ = 100 := Nat.mul_div_cancel_left 100 ht0
  · intro hall hne
    have hkeq : (sliceOf doc a b).takeWhile PageRead.isOk = sliceOf doc a b :=
      takeWhile_eq_self_of_all _ _ hall
    rw [hpv, hkeq]
    obtain ⟨n, hn⟩ : ∃ n, (sliceOf doc a b).length = n + 1 := by
      cases hsl : sliceOf doc a b with
      | nil => exact absurd hsl hne
      | cons x xs => exact ⟨xs.length, rfl⟩
    rw [hn, List.range_succ, List.map_append, List.map_cons, List.map_nil,
      List.getLast?_concat]
    congr 1
    unfold progressPct
    exact Nat.mul_div_cancel_left 100 (Nat.succ_pos n)

/-- C7 witness: a one-page readable document; its single percentage is
already the final one and equals 100. -/
theorem c7_witness :
    (sliceOf [PageRead.ok none] 1 1).all PageRead.isOk = true ∧
    sliceOf [PageRead.ok none] 1 1 ≠ [] ∧
    (progressValues (ExtractWorker.run [] [] [PageRead.ok none] 1 1)).getLast? =
      some 100 :=
  ⟨by decide, by decide,
    (c7_progress_monotone_bounded_final [] [] [PageRead.ok none] 1 1).2.2
      (by decide) (by decide)⟩

/-- C8: the ranked view most_common is sorted by count descending, and
entries of equal count keep their first-insertion relative order: at
every fixed count value the output equals the counter order filtered to
that value.  most_common is a pure function of the counter, so repeated
runs over identical input give identical output order. -/
theorem c8_ranked_view_sorted_and_stable (m : List (String × Nat)) (c : Nat) :
    (PDFWordExtractor.most_common m).Pairwise (fun x y => y.2 ≤ x.2) ∧
    (PDFWordExtractor.most_common m).filter (fun q => q.2 == c) =
      m.filter (fun q => q.2 == c) :=
  ⟨pairwise_most_common m, filter_most_common c m⟩

/-- C9: the caller-visible failure state of display_result is entered
iff the job ran its exception branch: when the page loop finishes, the
emitted counter never contains the sentinel key — every key passed the
vocabulary test and the sentinel is not in the vocabulary — so a
successful result, even one with zero accepted words, is presented as
success and never conflated with failure; when the loop aborts, the
emitted sentinel counter always trips the failure test. -/
theorem c9_failure_state_iff_job_failed
    (vocab stops : List String) (hv : vocab.contains failSentinel = false)
    (doc : List PageRead) (a b : Nat) :
    PDFWordExtractor.showsFailure
        (ExtractWorker.emittedResult (ExtractWorker.runCore vocab stops doc a b).2) =
      !((sliceOf doc a b).all PageRead.isOk) := by
  simp only [ExtractWorker.runCore]
  rw [pageLoop_eq]
  by_cases h : (sliceOf doc a b).all PageRead.isOk = true
  · rw [if_pos h, h, Bool.not_true]
    simp only [Prod.snd, ExtractWorker.emittedResult, Option.getD_some]
    unfold PDFWordExtractor.showsFailure
    cases hf : (countFrom vocab stops ((sliceOf doc a b).map PageRead.text) []).find?
        (fun p => p.1 == failSentinel) with
    | none => simp [hf]
    | some p =>
      exfalso
      have hmem := List.mem_of_find?_eq_some hf
      have hpred := List.find?_some hf
      have hkey : p.1 = failSentinel := by simpa using hpred
      rcases mem_countFrom vocab stops _ [] p hmem with hm | hm
      · exact absurd hm (List.not_mem_nil p)
      · rw [hkey, hv] at hm
        exact absurd hm (by decide)
  · rw [if_neg h]
    have hb : (sliceOf doc a b).all PageRead.isOk = false := by
      cases hq : (sliceOf doc a b).all PageRead.isOk
      · rfl
      · exact absurd hq h
    rw [hb, Bool.not_false]
    show PDFWordExtractor.showsFailure (ExtractWorker.emittedResult none) = true
    decide

/-- C9 witness: a vocabulary without the sentinel, one erring page. -/
theorem c9_witness :
    (["cat"] : List String).contains failSentinel = false ∧
    PDFWordExtractor.showsFailure
        (ExtractWorker.emittedResult
          (ExtractWorker.runCore ["cat"] [] [PageRead.err] 1 1).2) =
      !((sliceOf [PageRead.err] 1 1).all PageRead.isOk) :=
  ⟨by decide, c9_failure_state_iff_job_failed ["cat"] [] (by decide) [PageRead.err] 1 1⟩

/-- C1 as stated fails on the code: in the range [1, 2] where page 1 is
readable with one accepted token and page 2 raises a read error, the
run does not emit a Success counting page 1 — the exception escapes the
page loop to the catch-all of line 51 and the run emits the sentinel
failure counter, which display_result presents as failure. -/
theorem c1_read_error_aborts_job_counterexample :
    ExtractWorker.run ["cat"] []
        [PageRead.ok (some [⟨true, true, 3, "cat"⟩]), PageRead.err] 1 2 =
      [Event.progress 50, Event.result [(failSentinel, 1)]] ∧
    PDFWordExtractor.showsFailure
        (ExtractWorker.emittedResult
          (ExtractWorker.runCore ["cat"] []
            [PageRead.ok (some [⟨true, true, 3, "cat"⟩]), PageRead.err] 1 2).2) =
      true := by
  constructor
  · decide
  · decide

/-- C1 amended: a page that yields no text (a falsy extract_text
result) is tolerated — over a full range containing exactly one such
page among otherwise readable pages, the run finishes and emits a
Success result whose counter is exactly the fold of the other pages —
whereas a page whose read raises an exception aborts the run, which
then emits the failure sentinel instead of a Success. -/
theorem c1_textless_page_tolerated_read_error_fatal
    (vocab stops : List String) (A B : List (List Token))
    (C : List (Option (List Token))) (rest : List PageRead) :
    (ExtractWorker.runCore vocab stops
        ((A.map some ++ none :: B.map some).map PageRead.ok) 1
        (A.length + 1 + B.length)).2 =
      some (countPages vocab stops (A.map some ++ B.map some)) ∧
    (ExtractWorker.runCore vocab stops
        (C.map PageRead.ok ++ PageRead.err :: rest) 1
        (C.length + 1 + rest.length)).2 = none := by
  constructor
  · rw [runCore_ok]
    have hslice : sliceOf (A.map some ++ none :: B.map some) 1
        (A.length + 1 + B.length) = A.map some ++ none :: B.map some := by
      unfold sliceOf
      rw [show (1 : Nat) - 1 = 0 from rfl, List.drop_zero, Nat.sub_zero]
      apply List.take_of_length_le
      simp only [List.length_append, List.length_map, List.length_cons]
      omega
    rw [hslice]
    simp only [countPages]
    rw [countFrom_middle_none]
  · simp only [ExtractWorker.runCore]
    rw [pageLoop_eq]
    have hslice2 : sliceOf (C.map PageRead.ok ++ PageRead.err :: rest) 1
        (C.length + 1 + rest.length) = C.map PageRead.ok ++ PageRead.err :: rest := by
      unfold sliceOf
      rw [show (1 : Nat) - 1 = 0 from rfl, List.drop_zero, Nat.sub_zero]
      apply List.take_of_length_le
      simp only [List.length_append, List.length_map, List.length_cons]
      omega
    have hall : (sliceOf (C.map PageRead.ok ++ PageRead.err :: rest) 1
        (C.length + 1 + rest.length)).all PageRead.isOk = false := by
      rw [hslice2]
      simp [List.all_append, List.all_cons, PageRead.isOk]
    simp [hall]

/-- C10: constructing the worker directly with a range end (or start)
past the page count raises no range error: the slice truncates to the
pages that exist, the run finishes its loop, and the Success counter
covers exactly the surviving pages — the empty counter when no page
falls in range.  No InvalidRange rejection and no failure result exists
on this path. -/
theorem c10_out_of_range_truncates_to_success
    (vocab stops : List String) (texts : List (Option (List Token)))
    (a b : Nat) (h1 : 1 ≤ a) (h2 : texts.length < b) :
    (ExtractWorker.runCore vocab stops (texts.map PageRead.ok) a b).2 =
      some (countPages vocab stops (texts.drop (a - 1))) ∧
    (texts.length < a →
      (ExtractWorker.runCore vocab stops (texts.map PageRead.ok) a b).2 =
        some []) := by
  have hs : sliceOf texts a b = texts.drop (a - 1) := by
    unfold sliceOf
    apply List.take_of_length_le
    rw [List.length_drop]
    omega
  constructor
  · rw [runCore_ok, hs]
  · intro h3
    rw [runCore_ok, hs]
    have hd : texts.drop (a - 1) = [] := List.drop_eq_nil_of_le (by omega)
    rw [hd]
    rfl

/-- C10 witness: a one-page document; range [1, 3] truncates to the one
existing page and succeeds; range [4, 9] truncates to no pages and
succeeds with the empty counter. -/
theorem c10_witness :
    (1 : Nat) ≤ 1 ∧
    ([some [(⟨true, true, 3, "cat"⟩ : Token)]] :
      List (Option (List Token))).length < 3 ∧
    (ExtractWorker.runCore ["cat"] []
        ([some [(⟨true, true, 3, "cat"⟩ : Token)]].map PageRead.ok) 1 3).2 =
      some [("cat", 1)] ∧
    (ExtractWorker.runCore ["cat"] []
        ([some [(⟨true, true, 3, "cat"⟩ : Token)]].map PageRead.ok) 4 9).2 =
      some [] := by
  refine ⟨by decide, by decide, ?_, ?_⟩
  · have h := c10_out_of_range_truncates_to_success ["cat"] []
        [some [(⟨true, true, 3, "cat"⟩ : Token)]] 1 3 (by decide) (by decide)
    exact h.1.trans (by decide)
  · have h := c10_out_of_range_truncates_to_success ["cat"] []
        [some [(⟨true, true, 3, "cat"⟩ : Token)]] 4 9 (by decide) (by decide)
    exact h.2 (by decide)
